import Mathlib

/-!
Verification of the contour-to-voxel-mask conversion engine of
`mirp/importData/imageDicomFileRTSTRUCT.py`.

Numeric values are modelled by exact rationals (`ℚ`).  NumPy helpers that the
source relies on (`np.isclose`, `np.allclose`, `np.round`, `np.around`,
`np.unique`, `np.diff`, `np.min`, `np.max`) are embedded below with their
documented semantics (default tolerances `rtol = 1e-5`, `atol = 1e-8`;
round-half-to-even).
-/

/-- A 3-vector in (z, y, x) order, matching the internal axis order of mirp. -/
structure V3 where
  z : ℚ
  y : ℚ
  x : ℚ
deriving DecidableEq, Repr

instance : Inhabited V3 := ⟨⟨0, 0, 0⟩⟩

/-- Integer dimensions of a voxel grid, (z, y, x) order. -/
structure D3 where
  z : ℤ
  y : ℤ
  x : ℤ
deriving DecidableEq, Repr

/-- A 3×3 matrix with rational entries; `aij` is row `i`, column `j`.
Rows and columns follow the (z, y, x) axis order. -/
structure M3 where
  a00 : ℚ
  a01 : ℚ
  a02 : ℚ
  a10 : ℚ
  a11 : ℚ
  a12 : ℚ
  a20 : ℚ
  a21 : ℚ
  a22 : ℚ
deriving DecidableEq, Repr

namespace M3

def id3 : M3 := ⟨1, 0, 0, 0, 1, 0, 0, 0, 1⟩

/-- Determinant (cofactor expansion along the first row). -/
def det3 (m : M3) : ℚ :=
  m.a00 * (m.a11 * m.a22 - m.a12 * m.a21)
  - m.a01 * (m.a10 * m.a22 - m.a12 * m.a20)
  + m.a02 * (m.a10 * m.a21 - m.a11 * m.a20)

/-- Matrix–vector product `m · v`. -/
def mulVec3 (m : M3) (v : V3) : V3 :=
  ⟨m.a00 * v.z + m.a01 * v.y + m.a02 * v.x,
   m.a10 * v.z + m.a11 * v.y + m.a12 * v.x,
   m.a20 * v.z + m.a21 * v.y + m.a22 * v.x⟩

/-- Explicit adjugate. -/
def adj3 (m : M3) : M3 :=
  ⟨m.a11 * m.a22 - m.a12 * m.a21,
   -(m.a01 * m.a22 - m.a02 * m.a21),
   m.a01 * m.a12 - m.a02 * m.a11,
   -(m.a10 * m.a22 - m.a12 * m.a20),
   m.a00 * m.a22 - m.a02 * m.a20,
   -(m.a00 * m.a12 - m.a02 * m.a10),
   m.a10 * m.a21 - m.a11 * m.a20,
   -(m.a00 * m.a21 - m.a01 * m.a20),
   m.a00 * m.a11 - m.a01 * m.a10⟩

/-- Matrix inverse via the adjugate; yields the zero matrix on singular input
(the source treats a degenerate orientation as a precondition violation). -/
def inv3 (m : M3) : M3 :=
  let d := det3 m
  if d = 0 then ⟨0, 0, 0, 0, 0, 0, 0, 0, 0⟩
  else ⟨m.adj3.a00 / d, m.adj3.a01 / d, m.adj3.a02 / d,
        m.adj3.a10 / d, m.adj3.a11 / d, m.adj3.a12 / d,
        m.adj3.a20 / d, m.adj3.a21 / d, m.adj3.a22 / d⟩

def mul3 (m n : M3) : M3 :=
  ⟨m.a00 * n.a00 + m.a01 * n.a10 + m.a02 * n.a20,
   m.a00 * n.a01 + m.a01 * n.a11 + m.a02 * n.a21,
   m.a00 * n.a02 + m.a01 * n.a12 + m.a02 * n.a22,
   m.a10 * n.a00 + m.a11 * n.a10 + m.a12 * n.a20,
   m.a10 * n.a01 + m.a11 * n.a11 + m.a12 * n.a21,
   m.a10 * n.a02 + m.a11 * n.a12 + m.a12 * n.a22,
   m.a20 * n.a00 + m.a21 * n.a10 + m.a22 * n.a20,
   m.a20 * n.a01 + m.a21 * n.a11 + m.a22 * n.a21,
   m.a20 * n.a02 + m.a21 * n.a12 + m.a22 * n.a22⟩

def transpose3 (m : M3) : M3 :=
  ⟨m.a00, m.a10, m.a20, m.a01, m.a11, m.a21, m.a02, m.a12, m.a22⟩

/-- `m` is orthogonal: `m · mᵀ = I`. -/
def orthogonal3 (m : M3) : Bool :=
  decide (mul3 m (transpose3 m) = id3)

end M3

/-! ### NumPy numeric helpers -/

/-- Round half to even (NumPy's rounding rule). -/
def roundHalfEven (x : ℚ) : ℤ :=
  let f := ⌊x⌋
  let r := x - f
  if r < 1/2 then f
  else if r > 1/2 then f + 1
  else if 2 ∣ f then f else f + 1

/-- `np.round(x)` as a rational. -/
def npRound (x : ℚ) : ℚ := (roundHalfEven x : ℚ)

/-- `np.around(x, 3)`: round half to even at three decimals. -/
def npAround3 (x : ℚ) : ℚ := (roundHalfEven (x * 1000) : ℚ) / 1000

/-- `np.isclose(a, b)` with default tolerances `rtol = 1e-5`, `atol = 1e-8`:
`|a - b| ≤ atol + rtol * |b|`. -/
def npIsClose (a b : ℚ) : Bool :=
  decide (|a - b| ≤ 1/100000000 + (1/100000) * |b|)

/-- `np.allclose(l, c)` for a list against a broadcast scalar. -/
def npAllClose (l : List ℚ) (c : ℚ) : Bool :=
  l.all fun a => npIsClose a c

/-- `np.unique`: sorted list of the distinct values. -/
def npUnique (l : List ℚ) : List ℚ :=
  l.dedup.insertionSort (· ≤ ·)

/-- `np.diff`: consecutive differences. -/
def npDiff (l : List ℚ) : List ℚ :=
  l.zipWith (fun a b => b - a) l.tail

/-- `np.min` over a list (`0` on the empty list, on which NumPy raises;
every use below is guarded by a non-emptiness fact). -/
def minD : List ℚ → ℚ
  | [] => 0
  | a :: t => t.foldl min a

/-- `np.max` over a list (`0` on the empty list). -/
def maxD : List ℚ → ℚ
  | [] => 0
  | a :: t => t.foldl max a

/-! ### Data model

Metadata of an RT-STRUCT file, reduced to the tags that
`imageDicomFileRTSTRUCT.py` reads.  Every tag whose presence the source
tests before reading is an `Option`.
-/

/-- One item of the Contour Sequence (3006,0040) of an ROI Contour Sequence:
geometric type (3006,0042), contour data (3006,0050) as world-space points in
(z, y, x) order, contour offset (3006,0045), and the SOP instance UIDs
(0008,1155) of the Contour Image Sequence (3006,0016).  A UID entry is `none`
when the (0008,1155) tag of that referenced image is missing. -/
structure ContourItem where
  geometricType : Option String
  contourData : Option (List V3)
  contourOffset : Option V3
  refSopUids : Option (List (Option String))
deriving DecidableEq, Repr

/-- One item of the ROI Contour Sequence (3006,0039): referenced ROI number
(3006,0084) and the contour sequence (3006,0040). -/
structure RoiContourSequence where
  roiNumber : Option ℤ
  items : List ContourItem
deriving DecidableEq, Repr

/-- Structure-set level metadata of the RT-STRUCT mask file: its series
instance UID, the SOP instance UIDs referenced transitively through the
Referenced Frame of Reference Sequence (3006,0010)/(3006,0012)/(3006,0014)/
(3006,0016)/(0008,1155) (flattened; `none` when the tag chain is absent),
the Structure Set ROI Sequence (3006,0020) as (ROI name (3006,0026),
ROI number (3006,0022)) pairs, and the ROI Contour Sequences (3006,0039). -/
structure StructSet where
  seriesInstanceUid : Option String
  forRefSopUids : Option (List (Option String))
  structureSetRois : List (Option String × Option ℤ)
  roiContourSequences : List RoiContourSequence
  sampleName : Option String
  modality : Option String
deriving DecidableEq, Repr

/-- A reference image descriptor: voxel-grid descriptor plus the identifiers
used by the reference-strategy selector.  `sopInstanceUids` is the pooled list
of per-slice SOP instance UIDs (a single-file image contributes a one-element
list), `none` when the image exposes no SOP instance UID (e.g. non-DICOM). -/
structure ImageF where
  origin : V3
  spacing : V3
  dim : D3
  orientation : M3
  seriesInstanceUid : Option String
  sopInstanceUids : Option (List String)
deriving DecidableEq, Repr

/-- Modelled from the spec: `ContourClass` of `mirp/importData/maskContour.py`
is not part of the sources; §3 describes it as an ordered sequence of 3D world
points with optional sub-polygons after merging, so it is a list of
sub-contours, each a point list in (z, y, x) order. -/
structure ContourClass where
  contour : List (List V3)
deriving DecidableEq, Repr

/-- Modelled from the spec: §4.1 Coordinate Transformer,
`voxel = orientation⁻¹ · (point − origin) / spacing` (component-wise division
after rotation). -/
def toVoxel (origin : V3) (orientation : M3) (spacing : V3) (p : V3) : V3 :=
  let q := M3.mulVec3 (M3.inv3 orientation) ⟨p.z - origin.z, p.y - origin.y, p.x - origin.x⟩
  ⟨q.z / spacing.z, q.y / spacing.y, q.x / spacing.x⟩

/-- Modelled from the spec: `ContourClass.to_voxel_coordinates` with explicit
origin/orientation/spacing overrides (§4.1: "Must accept arbitrary
origin/orientation/spacing overrides"). -/
def ContourClass.toVoxelCoordinates (c : ContourClass) (origin : V3) (orientation : M3)
    (spacing : V3) : ContourClass :=
  ⟨c.contour.map fun sc => sc.map (toVoxel origin orientation spacing)⟩

/-- `ContourClass.to_voxel_coordinates(image=image)`: transform into the
image's own voxel space. -/
def contourToVoxelImg (img : ImageF) (c : ContourClass) : ContourClass :=
  c.toVoxelCoordinates img.origin img.orientation img.spacing

/-- First voxel/world coordinate of a sub-contour along the slice axis
(`sub_contour[0, 0]` in the source; sub-contours are non-empty in any input
the source itself does not crash on). -/
def headZ (sc : List V3) : ℚ := (sc.headD default).z

/-! ### `_collect_contours` (lines 540-588) -/

/-- `MaskDicomFileRTSTRUCT._collect_contours`: keep only contour items whose
geometric type (3006,0042) exists and equals `"CLOSED_PLANAR"` and whose
contour data (3006,0050) exists; subtract the offset (3006,0045) if present
(default `[0,0,0]`); return `None` when nothing remains. -/
def collectContours (rcs : RoiContourSequence) : Option (List ContourClass) :=
  let objs := rcs.items.filterMap fun item =>
    if item.geometricType = some "CLOSED_PLANAR" then
      match item.contourData with
      | some pts =>
        let off := item.contourOffset.getD ⟨0, 0, 0⟩
        some (ContourClass.mk [pts.map fun p => ⟨p.z - off.z, p.y - off.y, p.x - off.x⟩])
      | none => none
    else none
  if objs = [] then none else some objs

/-! ### `_convert_contour_using_image` (lines 234-354) -/

/-- `series_uid_correct` (lines 265-272): `false` when the reference image has
no series instance UID, else equality of the structure set's series UID with
it (`None == uid` is `False` in Python). -/
def seriesUidCorrect (meta : StructSet) (img : ImageF) : Bool :=
  match img.seriesInstanceUid with
  | none => false
  | some r => decide (meta.seriesInstanceUid = some r)

/-- The pooled list of referenced SOP instance UIDs (lines 283-311): UIDs from
per-contour image references, then UIDs from the referenced
frame-of-reference sequence, with `None` entries removed. -/
def pooledRefSopUids (meta : StructSet) (rcs : RoiContourSequence) : List String :=
  (((rcs.items.map fun item => item.refSopUids.getD []).flatten
    ++ meta.forRefSopUids.getD []).filterMap id)

/-- `sop_uid_correct` (lines 274-313): `false` when the image exposes no SOP
instance UIDs; otherwise, only when more than one referenced UID was pooled,
test whether the image's UID set is a superset of the pooled set. -/
def sopUidCorrect (meta : StructSet) (rcs : RoiContourSequence) (img : ImageF) : Bool :=
  match img.sopInstanceUids with
  | none => false
  | some ref =>
    let referenced := pooledRefSopUids meta rcs
    if 1 < referenced.length then referenced.all fun u => decide (u ∈ ref)
    else false

/-- All sub-contours of a list of contour objects, in order. -/
def subContours (cs : List ContourClass) : List (List V3) :=
  (cs.map ContourClass.contour).flatten

/-- `orientation_correct` (lines 325-332): within each sub-contour, every
slice-axis coordinate is `np.allclose` to the first one. -/
def orientationCorrect (cs : List ContourClass) : Bool :=
  (subContours cs).all fun sc => npAllClose (sc.map V3.z) (headZ sc)

/-- `position_correct` (lines 325-334): each sub-contour's first slice-axis
coordinate is `np.isclose` to its `np.round`. -/
def positionCorrect (cs : List ContourClass) : Bool :=
  (subContours cs).all fun sc => npIsClose (npRound (headZ sc)) (headZ sc)

/-- `np.unique` of the first slice-axis coordinates of all sub-contours
(lines 343-344). -/
def uniqueSlicePositions (cs : List ContourClass) : List ℚ :=
  npUnique ((subContours cs).map headZ)

/-- `MaskDicomFileRTSTRUCT._convert_contour_using_image` (lines 234-354):
decide whether the reference image can carry the mask, returning
`(use_reference_image, orientation_correct, position_correct)`. -/
def convertContourUsingImage (meta : StructSet) (rcs : RoiContourSequence)
    (image : Option ImageF) : Bool × Bool × Bool :=
  match image with
  | none => (false, false, false)
  | some img =>
    let series := seriesUidCorrect meta img
    let sop := sopUidCorrect meta rcs img
    match collectContours rcs with
    | none => (true, true, true)
    | some cs0 =>
      let cs := cs0.map (contourToVoxelImg img)
      let oc := orientationCorrect cs
      let pc := positionCorrect cs
      if oc = false then (false, oc, pc)
      else if pc = false then (false, oc, pc)
      else
        let sp := uniqueSlicePositions cs
        if sp.length = 1 then (true, true, true)
        else if npIsClose (minD (npDiff sp)) 1 = false ∧ sop = false ∧ series = false then
          (false, true, false)
        else (true, true, true)

/-! ### `_create_image_from_contour` (lines 356-430) -/

namespace M3

/-- `svd.U[:, (2, 1, 0)]`: the left singular vectors in reversed column
order (line 377). -/
def reverseCols (m : M3) : M3 :=
  ⟨m.a02, m.a01, m.a00, m.a12, m.a11, m.a10, m.a22, m.a21, m.a20⟩

/-- Scale the three columns by `s0`, `s1`, `s2`. -/
def scaleCols (s0 s1 s2 : ℚ) (m : M3) : M3 :=
  ⟨s0 * m.a00, s1 * m.a01, s2 * m.a02,
   s0 * m.a10, s1 * m.a11, s2 * m.a12,
   s0 * m.a20, s1 * m.a21, s2 * m.a22⟩

def colSum0 (m : M3) : ℚ := m.a00 + m.a10 + m.a20
def colSum1 (m : M3) : ℚ := m.a01 + m.a11 + m.a21
def colSum2 (m : M3) : ℚ := m.a02 + m.a12 + m.a22

/-- Lines 381-383: flip the sign of every column whose component sum is
negative. -/
def flipNegCols (m : M3) : M3 :=
  scaleCols (if colSum0 m < 0 then -1 else 1) (if colSum1 m < 0 then -1 else 1)
    (if colSum2 m < 0 then -1 else 1) m

/-- The number of columns whose component sum is negative. -/
def negColCount (m : M3) : ℕ :=
  (if colSum0 m < 0 then 1 else 0) + (if colSum1 m < 0 then 1 else 0)
    + (if colSum2 m < 0 then 1 else 0)

/-- Lines 379-383: the right-handedness fix is applied only when the
determinant is (exactly) `-1`. -/
def fixOrientation (m : M3) : M3 :=
  if det3 m = -1 then flipNegCols m else m

end M3

/-- Lines 373-383: the synthesized orientation: left singular vectors in
reversed column order, then the conditional sign flip. -/
def synthOrientation (u : M3) : M3 :=
  M3.fixOrientation (M3.reverseCols u)

/-- `MaskDicomFileRTSTRUCT._create_image_from_contour` (lines 356-430).

The left singular vectors `svd.U` of `np.linalg.svd` on the mean-centered,
stacked points of the *first* contour object (lines 373-377) are not exactly
computable over `ℚ`; they enter through the oracle `svdU`, applied to exactly
the point list the source passes to `np.linalg.svd` (the first contour
object's stacked points).  `use_orientation` is overwritten to `False`
unconditionally at line 368, so it is not a parameter here; `use_position`
selects between the fully synthetic grid and the template copy (lines
388-422). -/
def roiSynthOrientation (svdU : List V3 → M3) (rcs : RoiContourSequence) : M3 :=
  synthOrientation (svdU ((((collectContours rcs).getD []).headD ⟨[]⟩).contour).flatten)

/-- Lines 390-399: all contour points of the ROI, projected into the
candidate orientation frame with zero origin and unit spacing. -/
def projectedPoints (svdU : List V3 → M3) (rcs : RoiContourSequence) : List V3 :=
  ((((collectContours rcs).getD []).map fun c =>
    (c.toVoxelCoordinates ⟨0, 0, 0⟩ (roiSynthOrientation svdU rcs) ⟨1, 1, 1⟩).contour).flatten).flatten

def createImageFromContour (svdU : List V3 → M3) (rcs : RoiContourSequence)
    (img : ImageF) (usePosition : Bool) : ImageF :=
  let maskOrientation := roiSynthOrientation svdU rcs
  if usePosition = false then
    let pts := projectedPoints svdU rcs
    let zs := pts.map V3.z
    let ys := pts.map V3.y
    let xs := pts.map V3.x
    let zSpacing := minD (npDiff (npUnique zs))
    let ySpacing := img.spacing.y
    let xSpacing := img.spacing.x
    let zOrigin := minD (npUnique zs)
    let yOrigin := minD (npUnique ys) - ySpacing
    let xOrigin := minD (npUnique xs) - xSpacing
    let zDim := ⌈(maxD (npUnique zs) - zOrigin) / zSpacing⌉
    let yDim := ⌈(maxD (npUnique ys) - yOrigin) / ySpacing⌉ + 1
    let xDim := ⌈(maxD (npUnique xs) - xOrigin) / xSpacing⌉ + 1
    { img with
      origin := ⟨zOrigin, yOrigin, xOrigin⟩
      spacing := ⟨zSpacing, ySpacing, xSpacing⟩
      dim := ⟨zDim, yDim, xDim⟩
      orientation := maskOrientation }
  else
    { img with orientation := maskOrientation }

/-! ### Contour merging and rasterization -/

/-- `np.unique` for integer lists: sorted distinct values. -/
def npUniqueZInt (l : List ℤ) : List ℤ :=
  l.dedup.insertionSort (· ≤ ·)

/-- Modelled from the spec: `ContourClass.which_slice` — §4.4 groups contours
"by the integer slice index each occupies"; a contour in voxel space occupies
the slice its (rounded) slice-axis coordinate designates, one id per
sub-contour. -/
def ContourClass.whichSlice (c : ContourClass) : List ℤ :=
  (c.contour.map fun sc => roundHalfEven (headZ sc)).dedup

/-- Modelled from the spec: `_merge_contours` (lines 590-617) together with
`ContourClass.merge` — for each unique slice id, the first contour on that
slice is primary and all other same-slice contours fold in as secondary
polygons (§4.4).  The merged unit keeps the primary's fractional slice-axis
position (§4.6 matches "a fractional or computed position") and the polygon
list. -/
def mergeContours (cs : List ContourClass) : List (ℚ × List (List V3)) :=
  let ids := npUniqueZInt ((cs.map ContourClass.whichSlice).flatten)
  ids.map fun sid =>
    let same := cs.filter fun c => sid ∈ c.whichSlice
    (headZ (((same.headD ⟨[]⟩).contour).headD []),
      (same.map ContourClass.contour).flatten)

/-- Even-odd ray-cast primitive: does the horizontal ray from `(py, px)` in
the `+x` direction cross the polygon edge from `(ay, ax)` to `(qy, qx)`? -/
def edgeCrossesRay (py px ay ax qy qx : ℚ) : Bool :=
  (decide (ay > py) != decide (qy > py))
    && decide (px < ax + (py - ay) * (qx - ax) / (qy - ay))

/-- Even-odd membership of a point in one closed polygon (first/last point
implicitly connected): parity of ray crossings. -/
def inPolyEvenOdd (poly : List (ℚ × ℚ)) (py px : ℚ) : Bool :=
  (poly.zip (poly.rotate 1)).foldl
    (fun acc e => acc != edgeCrossesRay py px e.1.1 e.1.2 e.2.1 e.2.2) false

/-- Even-odd membership across all sub-polygons of a slice: holes toggle
parity layer by layer (§4.5). -/
def inPolysEvenOdd (polys : List (List (ℚ × ℚ))) (py px : ℚ) : Bool :=
  polys.foldl (fun acc poly => acc != inPolyEvenOdd poly py px) false

/-- Modelled from the spec: the rasterizer of
`ContourClass.contour_to_grid_ray_cast` (§4.5) — a 2D boolean grid sized to
the target image's in-plane dimensions; voxel `(iy, ix)` is set when its
center lies inside the merged polygon set under the even-odd rule.  Contours
are already in the target voxel space, so voxel centers sit at integer
coordinates. -/
def rasterizeSlice (dimY dimX : ℤ) (polys : List (List V3)) : Finset (ℤ × ℤ) :=
  (Finset.Icc 0 (dimY - 1) ×ˢ Finset.Icc 0 (dimX - 1)).filter fun q =>
    inPolysEvenOdd (polys.map fun sc => sc.map fun p => (p.y, p.x)) (q.1 : ℚ) (q.2 : ℚ)
      = true

/-! ### Slice matching (`_match_slice_position`, lines 619-631) -/

/-- Modelled from the spec: `image.get_slice_position()` — §6 "a list of known
slice world-positions (ordered)"; position of slice `k` along the out-of-plane
axis is `k * spacing_z`, consistent with `_match_slice_position`, which
compares `voxel_z * spacing_z` against the known positions. -/
def getSlicePosition (img : ImageF) : List ℚ :=
  (List.range img.dim.z.toNat).map fun k => (k : ℚ) * img.spacing.z

deriving instance DecidableEq for Except

/-- The indices of the known positions whose 3-decimal-rounded absolute
difference with `slicePosition * imageSpacingZ` is zero (`np.argwhere
(position_difference == 0.0)`). -/
def zeroDiffIdx (slicePosition : ℚ) (knownPosition : List ℚ) (imageSpacingZ : ℚ) :
    List ℕ :=
  (List.range knownPosition.length).filter fun i =>
    npAround3 |slicePosition * imageSpacingZ - knownPosition.getD i 0| = 0

/-- `MaskDicomFileRTSTRUCT._match_slice_position` (lines 619-631): multiply
the candidate position by the out-of-plane spacing, round absolute differences
to 3 decimals, accept a unique zero; no zero yields "unmatched" (`none`);
`int(np.argwhere(...))` on several zeros raises `TypeError` (modelled as
`Except.error`). -/
def matchSlicePosition (slicePosition : ℚ) (knownPosition : List ℚ)
    (imageSpacingZ : ℚ) : Except String (Option ℕ) :=
  let zeroIdx := zeroDiffIdx slicePosition knownPosition imageSpacingZ
  if zeroIdx.length = 1 then .ok (some (zeroIdx.headD 0))
  else if zeroIdx.length = 0 then .ok none
  else .error "TypeError: only size-1 arrays can be converted to Python scalars"

/-! ### Connected components (skimage.measure.label, connectivity=2) -/

/-- A voxel coordinate (z, y, x). -/
abbrev Voxel := ℤ × ℤ × ℤ

/-- skimage adjacency at `connectivity=2` on a 3D volume: neighborhood offsets
in `{-1,0,1}³` reachable in at most 2 orthogonal hops — faces and edges,
i.e. 18-connectivity. -/
def adj18 (p q : Voxel) : Bool :=
  let dz := (p.1 - q.1).natAbs
  let dy := (p.2.1 - q.2.1).natAbs
  let dx := (p.2.2 - q.2.2).natAbs
  decide (dz ≤ 1 ∧ dy ≤ 1 ∧ dx ≤ 1 ∧ dz + dy + dx ≤ 2 ∧ dz + dy + dx ≠ 0)

/-- Full 26-connectivity (faces, edges and corners): offsets in `{-1,0,1}³`,
at most 3 orthogonal hops.  This is what skimage uses at `connectivity=3`,
and what claim C8 asserts. -/
def adj26 (p q : Voxel) : Bool :=
  let dz := (p.1 - q.1).natAbs
  let dy := (p.2.1 - q.2.1).natAbs
  let dx := (p.2.2 - q.2.2).natAbs
  decide (dz ≤ 1 ∧ dy ≤ 1 ∧ dx ≤ 1 ∧ dz + dy + dx ≠ 0)

/-- One closure step of region growing inside the set `m` of true voxels. -/
def ccStep (adj : Voxel → Voxel → Bool) (m : Finset Voxel) (s : Finset Voxel) :
    Finset Voxel :=
  s ∪ m.filter fun q => ∃ p ∈ s, adj p q = true

/-- The connected component of `p` inside `m`: `m.card` closure steps reach
the fixed point. -/
def ccComp (adj : Voxel → Voxel → Bool) (m : Finset Voxel) (p : Voxel) :
    Finset Voxel :=
  (ccStep adj m)^[m.card] {p}

/-- Raster (lexicographic (z, y, x)) order on voxels. -/
def lexLe (p q : Voxel) : Prop :=
  p.1 < q.1 ∨ (p.1 = q.1 ∧ (p.2.1 < q.2.1 ∨ (p.2.1 = q.2.1 ∧ p.2.2 ≤ q.2.2)))

instance : DecidableRel lexLe := fun p q => by
  unfold lexLe
  infer_instance

instance : IsTrans Voxel lexLe := by
  constructor
  intro a b c hab hbc
  rcases hab with h | ⟨h1, h | ⟨h2, h3⟩⟩ <;> rcases hbc with g | ⟨g1, g | ⟨g2, g3⟩⟩ <;>
    unfold lexLe <;> omega

instance : IsAntisymm Voxel lexLe := by
  constructor
  intro a b hab hba
  obtain ⟨a1, a2, a3⟩ := a
  obtain ⟨b1, b2, b3⟩ := b
  rcases hab with h | ⟨h1, h | ⟨h2, h3⟩⟩ <;> rcases hba with g | ⟨g1, g | ⟨g2, g3⟩⟩ <;>
    simp_all <;> omega

instance : IsTotal Voxel lexLe := by
  constructor
  intro a b
  unfold lexLe
  omega

/-- The true voxels in raster-scan order. -/
def rasterList (m : Finset Voxel) : List Voxel :=
  m.sort lexLe

/-- The connected components in the order skimage labels them: scanning the
volume in raster order, each voxel not yet covered starts the next label's
component. -/
def ccComponents (adj : Voxel → Voxel → Bool) (m : Finset Voxel) :
    List (Finset Voxel) :=
  (rasterList m).foldl
    (fun acc p => if acc.any fun c => decide (p ∈ c) then acc else acc ++ [ccComp adj m p])
    []

/-- `np.max` over a list of naturals. -/
def maxN : List ℕ → ℕ
  | [] => 0
  | a :: t => max a (maxN t)

/-- `np.argmax`: index of the first occurrence of the maximum. -/
def argmaxFirst : List ℕ → ℕ
  | [] => 0
  | a :: t => if maxN t > a then argmaxFirst t + 1 else 0

/-- Lines 523-538: label the volume with `skimage.measure.label(...,
connectivity=2)` (18-connectivity on a 3D volume), count voxels per label,
keep the voxels of the `np.argmax` label (first maximum = lowest label id). -/
def keepLargestComponent (m : Finset Voxel) : Finset Voxel :=
  let comps := ccComponents adj18 m
  comps.getD (argmaxFirst (comps.map Finset.card)) ∅

/-- The connectivity filter as claim C8 words it, with 26-connectivity;
defined only to compare against the implementation's filter. -/
def keepLargestComponent26 (m : Finset Voxel) : Finset Voxel :=
  let comps := ccComponents adj26 m
  comps.getD (argmaxFirst (comps.map Finset.card)) ∅

/-- Lines 523-538: the `disconnected_segments` policy.  Any value other than
`"keep_largest"` leaves the assembled volume untouched. -/
def convertDisconnected (policy : String) (m : Finset Voxel) : Finset Voxel :=
  if policy = "keep_largest" then keepLargestComponent m else m

/-! ### `convert_contour_to_mask` (lines 432-538) -/

/-- Lines 518-521: write each in-plane mask into its slice of the 3D volume,
`or`-ing repeated slices. -/
def assembleMask (pairs : List (ℤ × Finset (ℤ × ℤ))) : Finset Voxel :=
  pairs.foldl (fun acc p => acc ∪ p.2.image fun q => (p.1, q.1, q.2)) ∅

/-- Lines 493-499: pair every matched slice index with its in-plane mask,
dropping unmatched slices. -/
def matchedPairs (matched : List (Option ℕ)) (masks : List (Finset (ℤ × ℤ))) :
    List (ℤ × Finset (ℤ × ℤ)) :=
  (matched.zip masks).filterMap fun pm => pm.1.map fun i => ((i : ℤ), pm.2)

/-- Lines 504-513: drop negative indices, then indices at or beyond the
out-of-plane dimension. -/
def inRangePairs (pairs : List (ℤ × Finset (ℤ × ℤ))) (dimZ : ℤ) :
    List (ℤ × Finset (ℤ × ℤ)) :=
  (pairs.filter fun p => 0 ≤ p.1).filter fun p => p.1 < dimZ

/-- `MaskDicomFileRTSTRUCT.convert_contour_to_mask` (lines 432-538).
Returns `none` where the source returns `None` (no image, no usable contours,
no rasterized, matched or in-range slices) and `Except.error` where it raises
(`NotImplementedError` for an unknown draw method — only when at least one
merged contour reaches the loop body — and the `TypeError` from
`_match_slice_position`). -/
def convertContourToMask (rcs : RoiContourSequence) (image : Option ImageF)
    (drawMethod : String) (disconnectedSegments : String) :
    Except String (Option (Finset Voxel)) :=
  match image with
  | none => .ok none
  | some img =>
    match collectContours rcs with
    | none => .ok none
    | some cs0 =>
      let cs := cs0.map (contourToVoxelImg img)
      let merged := mergeContours cs
      let rastered : Except String (List ℚ × List (Finset (ℤ × ℤ))) :=
        if drawMethod = "ray_cast" then
          .ok (merged.map Prod.fst, merged.map fun mc => rasterizeSlice img.dim.y img.dim.x mc.2)
        else if merged = [] then .ok ([], [])
        else .error "NotImplementedError: unknown draw method"
      match rastered with
      | .error e => .error e
      | .ok (sliceList, maskList) =>
        if sliceList = [] then .ok none
        else
          match sliceList.mapM
              (fun sp => matchSlicePosition sp (getSlicePosition img) img.spacing.z) with
          | .error e => .error e
          | .ok matched =>
            let pairs1 := matchedPairs matched maskList
            if pairs1 = [] then .ok none
            else
              let pairs2 := pairs1.filter fun p => 0 ≤ p.1
              if pairs2 = [] then .ok none
              else
                let pairs3 := pairs2.filter fun p => p.1 < img.dim.z
                if pairs3 = [] then .ok none
                else .ok (some (convertDisconnected disconnectedSegments (assembleMask pairs3)))

/-! ### `to_object` (lines 103-232) -/

/-- The shapes `self.roi_name` can take (lines 136-142): `None`, a single
name, a list of names, or a name-to-new-name mapping. -/
inductive RoiSelection where
  | all : RoiSelection
  | one : String → RoiSelection
  | several : List String → RoiSelection
  | mapping : List (String × String) → RoiSelection
deriving DecidableEq, Repr

/-- The emitted mask object (lines 216-227): boolean voxel data plus the grid
descriptor and identifiers handed to `BaseMask`. -/
structure BaseMask where
  roiName : Option String
  sampleName : Option String
  modality : Option String
  imageData : Finset Voxel
  spacing : V3
  origin : V3
  orientation : M3
  dimension : D3
deriving DecidableEq

/-- `MaskDicomFileRTSTRUCT.to_object` (lines 103-232).  `svdU` is the SVD
oracle threaded to `_create_image_from_contour`.  Raises (`Except.error`) on
a missing image (lines 109-113); returns `none` where the source returns
`None` (mask check failed, no selected ROI, or no non-empty mask). -/
def toObject (meta : StructSet) (image : Option ImageF) (roiSel : RoiSelection)
    (disconnectedSegments : String) (svdU : List V3 → M3) :
    Except String (Option (List BaseMask)) :=
  match image with
  | none => .error "TypeError: converting an RT-structure requires the corresponding image"
  | some img =>
    if meta.structureSetRois = [] then .ok none
    else if meta.structureSetRois.any fun nr => decide (nr.1 = none) then .ok none
    else
      let provided : Option (List String) :=
        match roiSel with
        | .all => none
        | .one s => some [s]
        | .several l => some l
        | .mapping l => some (l.map Prod.fst)
      let pairs :=
        match provided with
        | none => meta.structureSetRois
        | some names =>
          meta.structureSetRois.filter fun nr =>
            match nr.1 with
            | some nm => decide (nm ∈ names)
            | none => false
      if pairs = [] then .ok none
      else
        let build : Except String (List BaseMask) :=
          meta.roiContourSequences.foldlM
            (fun acc rcs =>
              if rcs.roiNumber ∈ pairs.map Prod.snd then
                let decision := convertContourUsingImage meta rcs (some img)
                let usedImage :=
                  if decision.1 = false then createImageFromContour svdU rcs img decision.2.2
                  else img
                match convertContourToMask rcs (some usedImage) "ray_cast"
                    disconnectedSegments with
                | .error e => .error e
                | .ok none => .ok acc
                | .ok (some md) =>
                  if md = ∅ then .ok acc
                  else
                    -- Lines 200-205: the grid descriptor written onto the
                    -- emitted mask is read from `image` — the reference
                    -- image — in both branches.
                    let name0 := ((pairs.filter fun nr => nr.2 = rcs.roiNumber).headD
                      (none, none)).1
                    let finalName :=
                      match roiSel with
                      | .mapping l =>
                        match name0 with
                        | some nm => (l.find? fun kv => kv.1 = nm).map Prod.snd
                        | none => none
                      | _ => name0
                    .ok (acc ++ [BaseMask.mk finalName meta.sampleName meta.modality md
                      img.spacing img.origin img.orientation img.dim])
              else .ok acc)
            []
        match build with
        | .error e => .error e
        | .ok masks => if masks = [] then .ok none else .ok (some masks)

instance : Inhabited BaseMask := ⟨⟨none, none, none, ∅, ⟨0, 0, 0⟩, ⟨0, 0, 0⟩, M3.id3, ⟨0, 0, 0⟩⟩⟩

/-! ### Reachability specification for connected components -/

/-- `p` and `q` are both true voxels and adjacent. -/
def AdjIn (adj : Voxel → Voxel → Bool) (m : Finset Voxel) (p q : Voxel) : Prop :=
  p ∈ m ∧ q ∈ m ∧ adj p q = true

/-- Connectedness inside the set of true voxels: the reflexive-transitive
closure of in-mask adjacency. -/
def ReachIn (adj : Voxel → Voxel → Bool) (m : Finset Voxel) : Voxel → Voxel → Prop :=
  Relation.ReflTransGen (AdjIn adj m)

/-- The voxel-contour points of an ROI in a reference image's voxel space
(`_collect_contours` followed by `to_voxel_coordinates(image=image)`). -/
def voxelContours (rcs : RoiContourSequence) (img : ImageF) : List ContourClass :=
  ((collectContours rcs).getD []).map (contourToVoxelImg img)

/-- The grid properties claim C6 asserts of the fully synthetic grid, phrased
through minimum/maximum characterizations of the projected point cloud:
slice spacing is the least gap between consecutive unique projected slice-axis
values; in-plane spacing comes from the template; the origin is the per-axis
minimum with one in-plane spacing unit subtracted on the in-plane axes; the
dimensions are the ceilings of (max − origin)/spacing, plus one on the
in-plane axes. -/
def SyntheticGridSpec (svdU : List V3 → M3) (rcs : RoiContourSequence)
    (img : ImageF) : Prop :=
  let res := createImageFromContour svdU rcs img false
  let pts := projectedPoints svdU rcs
  let zs := pts.map V3.z
  let ys := pts.map V3.y
  let xs := pts.map V3.x
  let zgaps := npDiff (npUnique zs)
  (res.spacing.z ∈ zgaps ∧ ∀ g ∈ zgaps, res.spacing.z ≤ g)
  ∧ res.spacing.y = img.spacing.y
  ∧ res.spacing.x = img.spacing.x
  ∧ (res.origin.z ∈ zs ∧ ∀ a ∈ zs, res.origin.z ≤ a)
  ∧ (∃ b, b ∈ ys ∧ (∀ a ∈ ys, b ≤ a) ∧ res.origin.y = b - img.spacing.y)
  ∧ (∃ b, b ∈ xs ∧ (∀ a ∈ xs, b ≤ a) ∧ res.origin.x = b - img.spacing.x)
  ∧ (∃ c, c ∈ zs ∧ (∀ a ∈ zs, a ≤ c) ∧ res.dim.z = ⌈(c - res.origin.z) / res.spacing.z⌉)
  ∧ (∃ c, c ∈ ys ∧ (∀ a ∈ ys, a ≤ c) ∧ res.dim.y = ⌈(c - res.origin.y) / res.spacing.y⌉ + 1)
  ∧ (∃ c, c ∈ xs ∧ (∀ a ∈ xs, a ≤ c) ∧ res.dim.x = ⌈(c - res.origin.x) / res.spacing.x⌉ + 1)

/-- The component `keep_largest` selects: the entry of the scan-ordered
component list at the `np.argmax` of the per-component voxel counts. -/
def chosenComponent (m : Finset Voxel) : Finset Voxel :=
  (ccComponents adj18 m).getD (argmaxFirst ((ccComponents adj18 m).map Finset.card)) ∅

/-- What the corrected claim C8 asserts of the `keep_largest` policy: the
returned volume is the component of some true voxel; the scan-ordered
components are exactly the 18-connectivity reachability classes of the true
voxels and cover all of them; the chosen component has maximal voxel count;
every earlier (lower) label has a strictly smaller count (ties resolve to the
lowest label). -/
def KeepLargestSpec (m : Finset Voxel) : Prop :=
  convertDisconnected "keep_largest" m = chosenComponent m
  ∧ (∃ p ∈ m, chosenComponent m = ccComp adj18 m p)
  ∧ (∀ c ∈ ccComponents adj18 m, c.card ≤ (chosenComponent m).card)
  ∧ (∀ j, j < argmaxFirst ((ccComponents adj18 m).map Finset.card) →
      ((ccComponents adj18 m).getD j ∅).card < (chosenComponent m).card)
  ∧ (∀ p ∈ m, ∃ c ∈ ccComponents adj18 m, p ∈ c)
  ∧ (∀ c ∈ ccComponents adj18 m, ∃ p ∈ m, ∀ q, q ∈ c ↔ ReachIn adj18 m p q)

/-! ### Concrete inputs for counterexamples, code-bug evaluation and witnesses -/

/-- An axis-aligned reference image: origin 0, unit spacing, 4×4×4, identity
orientation, no UIDs. -/
def imgId : ImageF := ⟨⟨0, 0, 0⟩, ⟨1, 1, 1⟩, ⟨4, 4, 4⟩, M3.id3, none, none⟩

/-- Two closed planar contours on slices 0 and 5 (gap 5), no UID data. -/
def rcsGap5 : RoiContourSequence :=
  ⟨some 1, [⟨some "CLOSED_PLANAR", some [⟨0, 0, 0⟩, ⟨0, 0, 2⟩, ⟨0, 2, 2⟩], none, none⟩,
            ⟨some "CLOSED_PLANAR", some [⟨5, 0, 0⟩, ⟨5, 0, 2⟩, ⟨5, 2, 2⟩], none, none⟩]⟩

def metaGap5 : StructSet := ⟨none, none, [(some "R", some 1)], [rcsGap5], none, none⟩

/-- A single closed planar contour at the constant non-integer voxel
position z = 5/2. -/
def rcsHalfSlice : RoiContourSequence :=
  ⟨some 1, [⟨some "CLOSED_PLANAR", some [⟨5/2, 0, 0⟩, ⟨5/2, 0, 2⟩, ⟨5/2, 2, 2⟩], none, none⟩]⟩

def metaHalfSlice : StructSet := ⟨none, none, [(some "R", some 1)], [rcsHalfSlice], none, none⟩

/-- A single closed planar contour on the integer slice z = 3. -/
def rcsOneSlice : RoiContourSequence :=
  ⟨some 1, [⟨some "CLOSED_PLANAR", some [⟨3, 0, 0⟩, ⟨3, 0, 2⟩, ⟨3, 2, 2⟩], none, none⟩]⟩

def metaOneSlice : StructSet := ⟨none, none, [(some "R", some 1)], [rcsOneSlice], none, none⟩

/-- A contour sequence referencing exactly one SOP instance UID, "A". -/
def rcsOneUid : RoiContourSequence :=
  ⟨some 1, [⟨some "CLOSED_PLANAR", some [⟨0, 0, 0⟩, ⟨0, 0, 2⟩, ⟨0, 2, 2⟩], none,
    some [some "A"]⟩]⟩

def metaOneUid : StructSet := ⟨none, none, [(some "R", some 1)], [rcsOneUid], none, none⟩

/-- The reference image whose single slice's SOP instance UID is "A". -/
def imgUidA : ImageF := ⟨⟨0, 0, 0⟩, ⟨1, 1, 1⟩, ⟨4, 4, 4⟩, M3.id3, none, some ["A"]⟩

/-- An orthogonal matrix (an axis permutation) whose reversed-column form has
determinant −1 and only positive column sums, so the sign-flip loop changes
nothing.  Its columns are plausible left singular vectors: spread mostly along
x, then z, least along y. -/
def uSwap : M3 := ⟨0, 1, 0, 0, 0, 1, 1, 0, 0⟩

/-- An orthogonal matrix whose reversed-column form is diag(1, 1, −1):
determinant −1 with exactly one negative column sum. -/
def uOddFlip : M3 := ⟨0, 0, 1, 0, 1, 0, -1, 0, 0⟩

/-- An SVD oracle for axis-aligned planar point clouds whose spread is
largest along x, then y, and zero along z (e.g. the rectangle of
`rcsTwoHalfSlices`): left singular vectors (x, y, z) as columns.  Its
reversed-column form is the identity. -/
def svdAxisAligned : List V3 → M3 := fun _ =>
  ⟨0, 0, 1, 0, 1, 0, 1, 0, 0⟩

/-- Two rectangles at the constant non-integer voxel positions z = 5/2 and
z = 7/2: position check fails, so the reference image is rejected and the
fully synthetic grid is built. -/
def rcsTwoHalfSlices : RoiContourSequence :=
  ⟨some 1, [⟨some "CLOSED_PLANAR",
      some [⟨5/2, 0, 0⟩, ⟨5/2, 0, 5⟩, ⟨5/2, 2, 5⟩, ⟨5/2, 2, 0⟩], none, none⟩,
    ⟨some "CLOSED_PLANAR",
      some [⟨7/2, 0, 0⟩, ⟨7/2, 0, 5⟩, ⟨7/2, 2, 5⟩, ⟨7/2, 2, 0⟩], none, none⟩]⟩

def metaTwoHalfSlices : StructSet :=
  ⟨none, none, [(some "GTV", some 1)], [rcsTwoHalfSlices], some "S1", some "rtstruct"⟩

/-- The synthetic grid the pipeline rasterizes `rcsTwoHalfSlices` on. -/
def syntheticGridTwoHalf : ImageF :=
  createImageFromContour svdAxisAligned rcsTwoHalfSlices imgId false

/-- The masks `to_object` emits for `rcsTwoHalfSlices` against `imgId`. -/
def toObjectTwoHalf : Except String (Option (List BaseMask)) :=
  toObject metaTwoHalfSlices (some imgId) RoiSelection.all "keep_as_is" svdAxisAligned

/-- The single mask object emitted by `toObjectTwoHalf`. -/
def emittedMaskTwoHalf : BaseMask :=
  ((toObjectTwoHalf.toOption.getD none).getD []).headD default

/-- Two voxels touching only at a corner: one 26-component, two
18-components. -/
def voxelPair : Finset Voxel := {(0, 0, 0), (1, 1, 1)}

/-- Two 18-connected regions of sizes 1 and 2 plus their raster order
make a non-trivial largest-component selection. -/
def voxelTriple : Finset Voxel := {(0, 0, 0), (3, 3, 3), (3, 3, 4)}

/-- A contour sequence with no usable CLOSED_PLANAR entry: a POINT entry
with data and a CLOSED_PLANAR entry without data. -/
def rcsNoPlanar : RoiContourSequence :=
  ⟨some 1, [⟨some "POINT", some [⟨0, 0, 0⟩], none, none⟩,
            ⟨some "CLOSED_PLANAR", none, none, none⟩]⟩

def metaNoPlanar : StructSet := ⟨none, none, [(some "R", some 1)], [rcsNoPlanar], none, none⟩

/-! ## Theorems

Helper lemmas first, then one theorem (plus witness or counterexample)
per claim. -/

theorem foldl_min_le_init (t : List ℚ) (a : ℚ) : t.foldl min a ≤ a := by
  induction t generalizing a with
  | nil => simp
  | cons b t ih =>
    simpa using le_trans (ih (min a b)) (min_le_left a b)

theorem foldl_min_le_mem (t : List ℚ) (a : ℚ) : ∀ b ∈ t, t.foldl min a ≤ b := by
  induction t generalizing a with
  | nil => intro b hb; cases hb
  | cons c t ih =>
    intro b hb
    rcases List.mem_cons.mp hb with rfl | hb
    · exact le_trans (foldl_min_le_init t (min a b)) (min_le_right a b)
    · exact ih (min a c) b hb

theorem foldl_min_mem (t : List ℚ) (a : ℚ) : t.foldl min a = a ∨ t.foldl min a ∈ t := by
  induction t generalizing a with
  | nil => simp
  | cons b t ih =>
    rcases ih (min a b) with h | h
    · rw [List.foldl_cons, h]
      rcases min_choice a b with hm | hm <;> simp [hm]
    · simp [h]

theorem minD_le {l : List ℚ} {a : ℚ} (h : a ∈ l) : minD l ≤ a := by
  cases l with
  | nil => cases h
  | cons b t =>
    simp only [minD]
    rcases List.mem_cons.mp h with rfl | ht
    · exact foldl_min_le_init t a
    · exact foldl_min_le_mem t b a ht

theorem minD_mem {l : List ℚ} (h : l ≠ []) : minD l ∈ l := by
  cases l with
  | nil => exact absurd rfl h
  | cons a t =>
    simp only [minD]
    rcases foldl_min_mem t a with h' | h' <;> simp [h']

theorem foldl_max_init_le (t : List ℚ) (a : ℚ) : a ≤ t.foldl max a := by
  induction t generalizing a with
  | nil => simp
  | cons b t ih =>
    simpa using le_trans (le_max_left a b) (ih (max a b))

theorem foldl_max_mem_le (t : List ℚ) (a : ℚ) : ∀ b ∈ t, b ≤ t.foldl max a := by
  induction t generalizing a with
  | nil => intro b hb; cases hb
  | cons c t ih =>
    intro b hb
    rcases List.mem_cons.mp hb with rfl | hb
    · exact le_trans (le_max_right a b) (foldl_max_init_le t (max a b))
    · exact ih (max a c) b hb

theorem foldl_max_mem (t : List ℚ) (a : ℚ) : t.foldl max a = a ∨ t.foldl max a ∈ t := by
  induction t generalizing a with
  | nil => simp
  | cons b t ih =>
    rcases ih (max a b) with h | h
    · rw [List.foldl_cons, h]
      rcases max_choice a b with hm | hm <;> simp [hm]
    · simp [h]

theorem le_maxD {l : List ℚ} {a : ℚ} (h : a ∈ l) : a ≤ maxD l := by
  cases l with
  | nil => cases h
  | cons b t =>
    simp only [maxD]
    rcases List.mem_cons.mp h with rfl | ht
    · exact foldl_max_init_le t a
    · exact foldl_max_mem_le t b a ht

theorem maxD_mem {l : List ℚ} (h : l ≠ []) : maxD l ∈ l := by
  cases l with
  | nil => exact absurd rfl h
  | cons a t =>
    simp only [maxD]
    rcases foldl_max_mem t a with h' | h' <;> simp [h']

theorem mem_npUnique {l : List ℚ} {a : ℚ} : a ∈ npUnique l ↔ a ∈ l := by
  unfold npUnique
  rw [List.mem_insertionSort, List.mem_dedup]


theorem collectContours_eq_none {rcs : RoiContourSequence}
    (h : ∀ item ∈ rcs.items,
      item.geometricType ≠ some "CLOSED_PLANAR" ∨ item.contourData = none) :
    collectContours rcs = none := by
  unfold collectContours
  have hmap : (rcs.items.filterMap fun item =>
      if item.geometricType = some "CLOSED_PLANAR" then
        match item.contourData with
        | some pts =>
          let off := item.contourOffset.getD ⟨0, 0, 0⟩
          some (ContourClass.mk [pts.map fun p => ⟨p.z - off.z, p.y - off.y, p.x - off.x⟩])
        | none => none
      else none) = [] := by
    rw [List.filterMap_eq_nil_iff]
    intro item hi
    rcases h item hi with hg | hd
    · exact if_neg hg
    · by_cases hgeo : item.geometricType = some "CLOSED_PLANAR"
      · simp [hgeo, hd]
      · exact if_neg hgeo
  simp [hmap]

/-- C9: calling `to_object` with `image = None` always raises a `TypeError`,
for every structure set, ROI selection, policy and SVD outcome. -/
theorem C9_missing_image_raises (meta : StructSet) (roiSel : RoiSelection)
    (dis : String) (svdU : List V3 → M3) :
    toObject meta none roiSel dis svdU =
      .error "TypeError: converting an RT-structure requires the corresponding image" := rfl

/-- C10: when an ROI contour sequence contains no usable CLOSED_PLANAR entry
(every item has a different geometric type or no contour data, so contour
collection yields nothing), `_convert_contour_using_image` returns
`(true, true, true)` — reference-image use, orientation and position are all
accepted vacuously, for any reference image and any UID state. -/
theorem C10_no_planar_vacuous_accept (meta : StructSet) (rcs : RoiContourSequence)
    (img : ImageF)
    (h : ∀ item ∈ rcs.items,
      item.geometricType ≠ some "CLOSED_PLANAR" ∨ item.contourData = none) :
    convertContourUsingImage meta rcs (some img) = (true, true, true) := by
  unfold convertContourUsingImage
  rw [collectContours_eq_none h]

theorem C10_no_planar_vacuous_accept_witness :
    convertContourUsingImage metaNoPlanar rcsNoPlanar (some imgId) = (true, true, true) :=
  C10_no_planar_vacuous_accept metaNoPlanar rcsNoPlanar imgId (of_decide_eq_true (by with_unfolding_all rfl))

/-- C3 counterexample: a single closed planar contour whose points share the
single unique voxel position z = 5/2 in the reference image's voxel space —
one unique world z-position — is rejected (`use_reference_image = false`),
because the position check precedes the single-slice shortcut; the claim
asserts acceptance. -/
theorem C3_counterexample :
    uniqueSlicePositions (voxelContours rcsHalfSlice imgId) = [5/2]
    ∧ (convertContourUsingImage metaHalfSlice rcsHalfSlice (some imgId)).1 = false :=
  of_decide_eq_true (by with_unfolding_all rfl)

/-- C3 (amended): when contour collection succeeds and the per-sub-contour
orientation and position checks pass, an ROI occupying exactly one unique
slice position accepts reference-image use regardless of the series-UID or
SOP-UID identity state (which may be anything in `meta` and `img`). -/
theorem C3_single_slice_accepts (meta : StructSet) (rcs : RoiContourSequence)
    (img : ImageF)
    (hc : collectContours rcs ≠ none)
    (horient : orientationCorrect (voxelContours rcs img) = true)
    (hpos : positionCorrect (voxelContours rcs img) = true)
    (hone : (uniqueSlicePositions (voxelContours rcs img)).length = 1) :
    convertContourUsingImage meta rcs (some img) = (true, true, true) := by
  rcases hcs : collectContours rcs with _ | cs0
  · exact absurd hcs hc
  · have hv : voxelContours rcs img = cs0.map (contourToVoxelImg img) := by
      simp [voxelContours, hcs]
    rw [hv] at horient hpos hone
    unfold convertContourUsingImage
    rw [hcs]
    simp [horient, hpos, hone]

theorem C3_single_slice_accepts_witness :
    convertContourUsingImage metaOneSlice rcsOneSlice (some imgId) = (true, true, true) :=
  C3_single_slice_accepts metaOneSlice rcsOneSlice imgId (of_decide_eq_true (by with_unfolding_all rfl)) (of_decide_eq_true (by with_unfolding_all rfl))
    (of_decide_eq_true (by with_unfolding_all rfl)) (of_decide_eq_true (by with_unfolding_all rfl))

/-- C2: with contours on two or more unique slice positions (after the
orientation and position checks pass), a minimum consecutive gap that is not
`np.isclose` to one voxel, and both identity checks failed,
`_convert_contour_using_image` rejects reference-image use. -/
theorem C2_nonadjacent_slices_reject (meta : StructSet) (rcs : RoiContourSequence)
    (img : ImageF)
    (hc : collectContours rcs ≠ none)
    (horient : orientationCorrect (voxelContours rcs img) = true)
    (hpos : positionCorrect (voxelContours rcs img) = true)
    (hlen : 2 ≤ (uniqueSlicePositions (voxelContours rcs img)).length)
    (hgap : ∃ g ∈ npDiff (uniqueSlicePositions (voxelContours rcs img)),
      (∀ h ∈ npDiff (uniqueSlicePositions (voxelContours rcs img)), g ≤ h)
      ∧ npIsClose g 1 = false)
    (hseries : seriesUidCorrect meta img = false)
    (hsop : sopUidCorrect meta rcs img = false) :
    (convertContourUsingImage meta rcs (some img)).1 = false := by
  rcases hcs : collectContours rcs with _ | cs0
  · exact absurd hcs hc
  · have hv : voxelContours rcs img = cs0.map (contourToVoxelImg img) := by
      simp [voxelContours, hcs]
    rw [hv] at horient hpos hlen hgap
    obtain ⟨g, hgmem, hgle, hgfar⟩ := hgap
    have hmin : minD (npDiff (uniqueSlicePositions (cs0.map (contourToVoxelImg img)))) = g :=
      le_antisymm (minD_le hgmem)
        (hgle _ (minD_mem (List.ne_nil_of_mem hgmem)))
    have hne1 : ¬ (uniqueSlicePositions (cs0.map (contourToVoxelImg img))).length = 1 := by
      omega
    unfold convertContourUsingImage
    rw [hcs]
    simp [horient, hpos, hne1, hmin, hgfar, hseries, hsop]

theorem C2_nonadjacent_slices_reject_witness :
    (convertContourUsingImage metaGap5 rcsGap5 (some imgId)).1 = false :=
  C2_nonadjacent_slices_reject metaGap5 rcsGap5 imgId (of_decide_eq_true (by with_unfolding_all rfl)) (of_decide_eq_true (by with_unfolding_all rfl)) (of_decide_eq_true (by with_unfolding_all rfl))
    (of_decide_eq_true (by with_unfolding_all rfl)) ⟨5, of_decide_eq_true (by with_unfolding_all rfl), of_decide_eq_true (by with_unfolding_all rfl), of_decide_eq_true (by with_unfolding_all rfl)⟩ (of_decide_eq_true (by with_unfolding_all rfl)) (of_decide_eq_true (by with_unfolding_all rfl))

/-- C4 counterexample: the pooled referenced SOP UID list is exactly `["A"]`
— non-empty and a subset of the reference image's SOP UIDs `["A"]` — yet
`sop_uid_correct` evaluates `false`, because the source only runs the superset
test when more than one UID was pooled; the claim asserts `true` for the
one-UID case. -/
theorem C4_counterexample :
    pooledRefSopUids metaOneUid rcsOneUid = ["A"]
    ∧ imgUidA.sopInstanceUids = some ["A"]
    ∧ sopUidCorrect metaOneUid rcsOneUid imgUidA = false :=
  of_decide_eq_true (by with_unfolding_all rfl)

/-- C4 (amended): `sop_uid_correct` is `true` exactly when the reference
image exposes SOP instance UIDs, the pooled referenced SOP UID list (from
per-contour image references and the referenced-frame-of-reference sequence,
`None` entries dropped) has more than one entry, and every pooled UID is among
the image's UIDs. -/
theorem C4_sop_uid_check_characterization (meta : StructSet)
    (rcs : RoiContourSequence) (img : ImageF) :
    sopUidCorrect meta rcs img = true ↔
      ∃ ref, img.sopInstanceUids = some ref
        ∧ 1 < (pooledRefSopUids meta rcs).length
        ∧ ∀ u ∈ pooledRefSopUids meta rcs, u ∈ ref := by
  unfold sopUidCorrect
  rcases h : img.sopInstanceUids with _ | ref
  · simp
  · rcases hlen : decide (1 < (pooledRefSopUids meta rcs).length) with _ | _
    · simp_all
    · simp_all [List.all_eq_true]

theorem M3.det3_scaleCols (s0 s1 s2 : ℚ) (m : M3) :
    M3.det3 (M3.scaleCols s0 s1 s2 m) = s0 * s1 * s2 * M3.det3 m := by
  simp only [M3.det3, M3.scaleCols]
  ring

/-- C5 counterexample: `uSwap` is orthogonal (so it is a possible `svd.U`),
its reversed-column form has determinant −1, and all its column sums are
positive, so the sign-flip loop leaves it unchanged: the synthesized
orientation has determinant −1, not 1 as the claim asserts. -/
theorem C5_counterexample :
    M3.orthogonal3 uSwap = true ∧ M3.det3 (synthOrientation uSwap) = -1 :=
  of_decide_eq_true (by with_unfolding_all rfl)

/-- C5 (amended): the synthesized orientation is the reversed-column left
singular vectors with the conditional sign flip of `_create_image_from_contour`;
when the reversed-column matrix has determinant exactly −1 and the number of
its columns with negative component sum is odd, the flip restores
right-handedness, `det = 1`.  (With an even number of negative-sum columns the
matrix stays left-handed, as the counterexample shows.) -/
theorem C5_flip_restores_right_handedness (u : M3)
    (hdet : M3.det3 (M3.reverseCols u) = -1)
    (hodd : Odd (M3.negColCount (M3.reverseCols u))) :
    M3.det3 (synthOrientation u) = 1 := by
  unfold synthOrientation M3.fixOrientation
  rw [if_pos hdet]
  unfold M3.negColCount at hodd
  unfold M3.flipNegCols
  split_ifs at hodd ⊢ <;>
    first
      | (exact absurd hodd (by decide))
      | (simp only [M3.det3_scaleCols, hdet]; norm_num)

theorem C5_flip_restores_right_handedness_witness :
    M3.det3 (synthOrientation uOddFlip) = 1 :=
  C5_flip_restores_right_handedness uOddFlip (of_decide_eq_true (by with_unfolding_all rfl)) (of_decide_eq_true (by with_unfolding_all rfl))

theorem npDiff_length (l : List ℚ) : (npDiff l).length = l.length - 1 := by
  unfold npDiff
  rw [List.length_zipWith, List.length_tail]
  omega

theorem npUnique_ne_nil {l : List ℚ} (h : l ≠ []) : npUnique l ≠ [] := by
  obtain ⟨a, ha⟩ := List.exists_mem_of_ne_nil l h
  intro hnil
  simpa [hnil] using mem_npUnique.mpr ha

/-- C6: in full synthetic mode, the grid built by `_create_image_from_contour`
satisfies, relative to the contour points projected into the candidate
orientation frame with zero origin and unit spacing: slice spacing = minimum
gap between consecutive unique projected slice-axis values; in-plane spacing
inherited from the template; origin = per-axis minimum with one in-plane
spacing unit subtracted on the in-plane axes; dimension = ceiling of
(max − origin)/spacing, plus one voxel on each in-plane axis. -/
theorem C6_synthetic_grid (svdU : List V3 → M3) (rcs : RoiContourSequence)
    (img : ImageF)
    (hpts : projectedPoints svdU rcs ≠ [])
    (hlen : 2 ≤ (npUnique ((projectedPoints svdU rcs).map V3.z)).length) :
    SyntheticGridSpec svdU rcs img := by
  have hzs : (projectedPoints svdU rcs).map V3.z ≠ [] := by
    intro hm; exact hpts (List.map_eq_nil_iff.mp hm)
  have hys : (projectedPoints svdU rcs).map V3.y ≠ [] := by
    intro hm; exact hpts (List.map_eq_nil_iff.mp hm)
  have hxs : (projectedPoints svdU rcs).map V3.x ≠ [] := by
    intro hm; exact hpts (List.map_eq_nil_iff.mp hm)
  have huz := npUnique_ne_nil hzs
  have huy := npUnique_ne_nil hys
  have hux := npUnique_ne_nil hxs
  have hgne : npDiff (npUnique ((projectedPoints svdU rcs).map V3.z)) ≠ [] := by
    intro hnil
    have := npDiff_length (npUnique ((projectedPoints svdU rcs).map V3.z))
    rw [hnil] at this
    simp at this
    omega
  exact ⟨⟨minD_mem hgne, fun g hg => minD_le hg⟩, rfl, rfl,
    ⟨mem_npUnique.mp (minD_mem huz), fun a ha => minD_le (mem_npUnique.mpr ha)⟩,
    ⟨minD (npUnique ((projectedPoints svdU rcs).map V3.y)),
      mem_npUnique.mp (minD_mem huy), fun a ha => minD_le (mem_npUnique.mpr ha), rfl⟩,
    ⟨minD (npUnique ((projectedPoints svdU rcs).map V3.x)),
      mem_npUnique.mp (minD_mem hux), fun a ha => minD_le (mem_npUnique.mpr ha), rfl⟩,
    ⟨maxD (npUnique ((projectedPoints svdU rcs).map V3.z)),
      mem_npUnique.mp (maxD_mem huz), fun a ha => le_maxD (mem_npUnique.mpr ha), rfl⟩,
    ⟨maxD (npUnique ((projectedPoints svdU rcs).map V3.y)),
      mem_npUnique.mp (maxD_mem huy), fun a ha => le_maxD (mem_npUnique.mpr ha), rfl⟩,
    ⟨maxD (npUnique ((projectedPoints svdU rcs).map V3.x)),
      mem_npUnique.mp (maxD_mem hux), fun a ha => le_maxD (mem_npUnique.mpr ha), rfl⟩⟩

theorem C6_synthetic_grid_witness :
    projectedPoints svdAxisAligned rcsTwoHalfSlices ≠ []
    ∧ 2 ≤ (npUnique ((projectedPoints svdAxisAligned rcsTwoHalfSlices).map V3.z)).length
    ∧ SyntheticGridSpec svdAxisAligned rcsTwoHalfSlices imgId :=
  ⟨of_decide_eq_true (by with_unfolding_all rfl),
   of_decide_eq_true (by with_unfolding_all rfl),
   C6_synthetic_grid svdAxisAligned rcsTwoHalfSlices imgId
     (of_decide_eq_true (by with_unfolding_all rfl))
     (of_decide_eq_true (by with_unfolding_all rfl))⟩

/-- C7 counterexample: a slice position whose rounded difference with a known
slice position is zero, but the known position occurs twice:
`int(np.argwhere(...))` raises `TypeError` — slice matching can raise,
contrary to the claim's "never raises". -/
theorem C7_counterexample :
    npAround3 |(10 : ℚ) * 1 - 10| = 0
    ∧ matchSlicePosition 10 [10, 10] 1 =
        .error "TypeError: only size-1 arrays can be converted to Python scalars" :=
  of_decide_eq_true (by with_unfolding_all rfl)

/-- C7 (amended): the zero-difference index set is exactly the set of known
positions whose 3-decimal rounded absolute difference with position × spacing
is zero; matching yields the unique such index when there is exactly one,
"unmatched" (`none`, dropped) when there is none, and raises a `TypeError`
when several known positions match; after matching, exactly the indices that
are negative or ≥ the out-of-plane dimension are dropped, silently. -/
theorem C7_match_and_filter (pos sz : ℚ) (known : List ℚ) (dimZ : ℤ)
    (pairs : List (ℤ × Finset (ℤ × ℤ))) :
    (∀ j, j ∈ zeroDiffIdx pos known sz ↔
      j < known.length ∧ npAround3 |pos * sz - known.getD j 0| = 0)
    ∧ (matchSlicePosition pos known sz =
        match zeroDiffIdx pos known sz with
        | [] => .ok none
        | [i] => .ok (some i)
        | _ :: _ :: _ =>
          .error "TypeError: only size-1 arrays can be converted to Python scalars")
    ∧ inRangePairs pairs dimZ = pairs.filter fun p => decide (0 ≤ p.1 ∧ p.1 < dimZ) := by
  refine ⟨?_, ?_, ?_⟩
  · intro j
    simp [zeroDiffIdx, List.mem_filter, List.mem_range]
  · rcases h : zeroDiffIdx pos known sz with _ | ⟨i, _ | ⟨i2, t⟩⟩ <;>
      simp [matchSlicePosition, h]
  · unfold inRangePairs
    rw [List.filter_filter]
    congr 1
    funext p
    by_cases h1 : 0 ≤ p.1 <;> by_cases h2 : p.1 < dimZ <;> simp [h1, h2]

/-! ### Connected-component correctness lemmas -/

theorem ccStep_subset_self (adj : Voxel → Voxel → Bool) (m s : Finset Voxel) :
    s ⊆ ccStep adj m s :=
  Finset.subset_union_left

theorem ccStep_subset (adj : Voxel → Voxel → Bool) (m : Finset Voxel) {s : Finset Voxel}
    (hs : s ⊆ m) : ccStep adj m s ⊆ m := by
  intro q hq
  rcases Finset.mem_union.mp hq with h | h
  · exact hs h
  · exact (Finset.mem_filter.mp h).1

theorem ccStep_mono (adj : Voxel → Voxel → Bool) (m : Finset Voxel) {s t : Finset Voxel}
    (h : s ⊆ t) : ccStep adj m s ⊆ ccStep adj m t := by
  intro q hq
  rcases Finset.mem_union.mp hq with hq | hq
  · exact Finset.mem_union_left _ (h hq)
  · obtain ⟨hqm, p, hp, hadj⟩ := Finset.mem_filter.mp hq
    exact Finset.mem_union_right _ (Finset.mem_filter.mpr ⟨hqm, p, h hp, hadj⟩)

theorem iterate_ccStep_subset (adj : Voxel → Voxel → Bool) (m : Finset Voxel)
    {s : Finset Voxel} (hs : s ⊆ m) (n : ℕ) : (ccStep adj m)^[n] s ⊆ m := by
  induction n with
  | zero => simpa using hs
  | succ n ih =>
    rw [Function.iterate_succ_apply']
    exact ccStep_subset adj m ih

theorem iterate_ccStep_succ_subset (adj : Voxel → Voxel → Bool) (m s : Finset Voxel)
    (n : ℕ) : (ccStep adj m)^[n] s ⊆ (ccStep adj m)^[n + 1] s := by
  induction n with
  | zero => simpa using ccStep_subset_self adj m s
  | succ n ih =>
    rw [Function.iterate_succ_apply', Function.iterate_succ_apply']
    exact ccStep_mono adj m ih

theorem iterate_ccStep_le (adj : Voxel → Voxel → Bool) (m s : Finset Voxel)
    {n k : ℕ} (h : n ≤ k) : (ccStep adj m)^[n] s ⊆ (ccStep adj m)^[k] s := by
  induction k with
  | zero =>
    cases Nat.le_zero.mp h
    exact fun a ha => ha
  | succ k ih =>
    rcases Nat.lt_or_ge n (k + 1) with hk | hk
    · exact (ih (by omega)).trans (iterate_ccStep_succ_subset adj m s k)
    · have : n = k + 1 := by omega
      subst this
      exact fun a ha => ha

theorem ccComp_sound (adj : Voxel → Voxel → Bool) (m : Finset Voxel) {p : Voxel}
    (hp : p ∈ m) (n : ℕ) :
    ∀ q ∈ (ccStep adj m)^[n] {p}, ReachIn adj m p q := by
  induction n with
  | zero =>
    intro q hq
    rw [Function.iterate_zero_apply, Finset.mem_singleton] at hq
    subst hq
    exact Relation.ReflTransGen.refl
  | succ n ih =>
    intro q hq
    rw [Function.iterate_succ_apply'] at hq
    rcases Finset.mem_union.mp hq with hq | hq
    · exact ih q hq
    · obtain ⟨hqm, r, hr, hadj⟩ := Finset.mem_filter.mp hq
      have hrm : r ∈ m :=
        iterate_ccStep_subset adj m (Finset.singleton_subset_iff.mpr hp) n hr
      exact Relation.ReflTransGen.tail (ih r hr) ⟨hrm, hqm, hadj⟩

theorem mem_ccComp_sound (adj : Voxel → Voxel → Bool) (m : Finset Voxel) {p q : Voxel}
    (hp : p ∈ m) (hq : q ∈ ccComp adj m p) : ReachIn adj m p q :=
  ccComp_sound adj m hp m.card q hq

theorem ccStep_fixed_iterate (adj : Voxel → Voxel → Bool) (m s : Finset Voxel)
    (hfix : ccStep adj m s = s) (n : ℕ) : (ccStep adj m)^[n] s = s := by
  induction n with
  | zero => rfl
  | succ n ih => rw [Function.iterate_succ_apply', ih, hfix]

theorem ccStep_progress (adj : Voxel → Voxel → Bool) (m s : Finset Voxel) (n : ℕ) :
    (ccStep adj m)^[n + 1] s = (ccStep adj m)^[n] s
    ∨ n + s.card ≤ ((ccStep adj m)^[n] s).card := by
  induction n with
  | zero => right; simp
  | succ n ih =>
    by_cases he : (ccStep adj m)^[n + 1 + 1] s = (ccStep adj m)^[n + 1] s
    · exact Or.inl he
    · right
      rcases ih with h | h
      · exfalso
        apply he
        calc (ccStep adj m)^[n + 1 + 1] s
            = ccStep adj m ((ccStep adj m)^[n + 1] s) :=
              Function.iterate_succ_apply' (ccStep adj m) (n + 1) s
          _ = ccStep adj m ((ccStep adj m)^[n] s) := by rw [h]
          _ = (ccStep adj m)^[n + 1] s :=
              (Function.iterate_succ_apply' (ccStep adj m) n s).symm
      · have hsub := iterate_ccStep_succ_subset adj m s n
        by_cases he' : (ccStep adj m)^[n + 1] s = (ccStep adj m)^[n] s
        · exfalso
          apply he
          calc (ccStep adj m)^[n + 1 + 1] s
              = ccStep adj m ((ccStep adj m)^[n + 1] s) :=
                Function.iterate_succ_apply' (ccStep adj m) (n + 1) s
            _ = ccStep adj m ((ccStep adj m)^[n] s) := by rw [he']
            _ = (ccStep adj m)^[n + 1] s :=
                (Function.iterate_succ_apply' (ccStep adj m) n s).symm
        · have hlt : ((ccStep adj m)^[n] s).card < ((ccStep adj m)^[n + 1] s).card :=
            Finset.card_lt_card (Finset.ssubset_iff_subset_ne.mpr ⟨hsub, Ne.symm he'⟩)
          omega

theorem ccStep_stab_at_card (adj : Voxel → Voxel → Bool) (m : Finset Voxel) {p : Voxel}
    (hp : p ∈ m) :
    ccStep adj m ((ccStep adj m)^[m.card] {p}) = (ccStep adj m)^[m.card] {p} := by
  have hsp : ({p} : Finset Voxel) ⊆ m := Finset.singleton_subset_iff.mpr hp
  rcases ccStep_progress adj m {p} m.card with h | h
  · rw [Function.iterate_succ_apply'] at h
    exact h
  · exfalso
    have hb := Finset.card_le_card (iterate_ccStep_subset adj m hsp m.card)
    simp only [Finset.card_singleton] at h
    omega

theorem ccComp_complete (adj : Voxel → Voxel → Bool) (m : Finset Voxel) {p q : Voxel}
    (hp : p ∈ m) (hr : ReachIn adj m p q) : q ∈ ccComp adj m p := by
  unfold ccComp
  induction hr with
  | refl =>
    exact iterate_ccStep_le adj m {p} (Nat.zero_le m.card)
      (by simp)
  | tail hab hbc ih =>
    rw [← ccStep_stab_at_card adj m hp]
    exact Finset.mem_union_right _ (Finset.mem_filter.mpr ⟨hbc.2.1, _, ih, hbc.2.2⟩)

theorem mem_ccComp_iff (adj : Voxel → Voxel → Bool) (m : Finset Voxel) {p : Voxel}
    (hp : p ∈ m) (q : Voxel) : q ∈ ccComp adj m p ↔ ReachIn adj m p q :=
  ⟨mem_ccComp_sound adj m hp, ccComp_complete adj m hp⟩

theorem ccComp_self_mem (adj : Voxel → Voxel → Bool) (m : Finset Voxel) (p : Voxel) :
    p ∈ ccComp adj m p :=
  iterate_ccStep_le adj m {p} (Nat.zero_le m.card)
    (by simp)

theorem components_foldl_mem_of_mem (adj : Voxel → Voxel → Bool) (m : Finset Voxel)
    (l : List Voxel) (acc : List (Finset Voxel)) {c : Finset Voxel} (hc : c ∈ acc) :
    c ∈ l.foldl
      (fun acc p => if acc.any fun d => decide (p ∈ d) then acc else acc ++ [ccComp adj m p])
      acc := by
  induction l generalizing acc with
  | nil => exact hc
  | cons a t ih =>
    simp only [List.foldl_cons]
    by_cases h : acc.any fun d => decide (a ∈ d)
    · rw [if_pos h]
      exact ih acc hc
    · rw [if_neg h]
      exact ih _ (List.mem_append_left _ hc)

theorem components_foldl_classes (adj : Voxel → Voxel → Bool) (m : Finset Voxel)
    (l : List Voxel) (acc : List (Finset Voxel))
    (hl : ∀ p ∈ l, p ∈ m)
    (hacc : ∀ c ∈ acc, ∃ p ∈ m, c = ccComp adj m p) :
    ∀ c ∈ l.foldl
      (fun acc p => if acc.any fun d => decide (p ∈ d) then acc else acc ++ [ccComp adj m p])
      acc, ∃ p ∈ m, c = ccComp adj m p := by
  induction l generalizing acc with
  | nil => exact hacc
  | cons a t ih =>
    simp only [List.foldl_cons]
    by_cases h : acc.any fun d => decide (a ∈ d)
    · rw [if_pos h]
      exact ih acc (fun p hp => hl p (List.mem_cons_of_mem a hp)) hacc
    · rw [if_neg h]
      refine ih _ (fun p hp => hl p (List.mem_cons_of_mem a hp)) ?_
      intro c hc
      rcases List.mem_append.mp hc with hc | hc
      · exact hacc c hc
      · rw [List.mem_singleton.mp hc]
        exact ⟨a, hl a (List.mem_cons_self a t), rfl⟩

theorem components_foldl_covers (adj : Voxel → Voxel → Bool) (m : Finset Voxel)
    (l : List Voxel) (acc : List (Finset Voxel)) :
    ∀ p ∈ l, ∃ c ∈ l.foldl
      (fun acc p => if acc.any fun d => decide (p ∈ d) then acc else acc ++ [ccComp adj m p])
      acc, p ∈ c := by
  induction l generalizing acc with
  | nil => intro p hp; cases hp
  | cons a t ih =>
    intro p hp
    simp only [List.foldl_cons]
    rcases List.mem_cons.mp hp with rfl | hp
    · by_cases h : acc.any fun d => decide (p ∈ d)
      · rw [if_pos h]
        obtain ⟨c, hc, hpc⟩ := List.any_eq_true.mp h
        exact ⟨c, components_foldl_mem_of_mem adj m t acc hc, of_decide_eq_true hpc⟩
      · rw [if_neg h]
        exact ⟨ccComp adj m p,
          components_foldl_mem_of_mem adj m t _ (List.mem_append_right _ (List.mem_singleton_self _)),
          ccComp_self_mem adj m p⟩
    · by_cases h : acc.any fun d => decide (a ∈ d)
      · rw [if_pos h]; exact ih acc p hp
      · rw [if_neg h]; exact ih _ p hp

theorem ccComponents_classes (adj : Voxel → Voxel → Bool) (m : Finset Voxel) :
    ∀ c ∈ ccComponents adj m, ∃ p ∈ m, c = ccComp adj m p := by
  apply components_foldl_classes
  · intro p hp
    exact (Finset.mem_sort lexLe).mp hp
  · intro c hc
    cases hc

theorem ccComponents_covers (adj : Voxel → Voxel → Bool) (m : Finset Voxel) :
    ∀ p ∈ m, ∃ c ∈ ccComponents adj m, p ∈ c := by
  intro p hp
  exact components_foldl_covers adj m (rasterList m) [] p ((Finset.mem_sort lexLe).mpr hp)

theorem ccComponents_ne_nil (adj : Voxel → Voxel → Bool) {m : Finset Voxel}
    (hm : m.Nonempty) : ccComponents adj m ≠ [] := by
  obtain ⟨p, hp⟩ := hm
  obtain ⟨c, hc, _⟩ := ccComponents_covers adj m p hp
  exact List.ne_nil_of_mem hc

theorem maxN_le_of_cons {a : ℕ} {t : List ℕ} (h : ¬ maxN t > a) : maxN (a :: t) = a := by
  simp only [maxN]
  exact Nat.max_eq_left (by omega)

theorem argmaxFirst_lt_length {l : List ℕ} (h : l ≠ []) : argmaxFirst l < l.length := by
  induction l with
  | nil => exact absurd rfl h
  | cons a t ih =>
    by_cases hc : maxN t > a
    · have ht : t ≠ [] := by
        intro h0
        rw [h0] at hc
        simp [maxN] at hc
      simp only [argmaxFirst, if_pos hc, List.length_cons]
      exact Nat.succ_lt_succ (ih ht)
    · simp [argmaxFirst, hc]

theorem getD_argmaxFirst (l : List ℕ) : l.getD (argmaxFirst l) 0 = maxN l := by
  induction l with
  | nil => rfl
  | cons a t ih =>
    by_cases hc : maxN t > a
    · simp only [argmaxFirst, if_pos hc, List.getD_cons_succ]
      rw [ih]
      simp only [maxN]
      exact (Nat.max_eq_right (le_of_lt hc)).symm
    · simp only [argmaxFirst, if_neg hc, List.getD_cons_zero]
      simp only [maxN]
      exact (Nat.max_eq_left (by omega)).symm

theorem getD_le_maxN (l : List ℕ) (j : ℕ) : l.getD j 0 ≤ maxN l := by
  induction l generalizing j with
  | nil => simp [List.getD]
  | cons a t ih =>
    cases j with
    | zero => simp [maxN]
    | succ j =>
      simp only [List.getD_cons_succ]
      calc t.getD j 0 ≤ maxN t := ih j
        _ ≤ maxN (a :: t) := by simp only [maxN]; exact Nat.le_max_right a (maxN t)

theorem getD_lt_before_argmaxFirst (l : List ℕ) :
    ∀ j < argmaxFirst l, l.getD j 0 < maxN l := by
  induction l with
  | nil => intro j hj; simp [argmaxFirst] at hj
  | cons a t ih =>
    intro j hj
    by_cases hc : maxN t > a
    · rw [argmaxFirst, if_pos hc] at hj
      have hmax : maxN (a :: t) = maxN t := by
        simp only [maxN]
        exact Nat.max_eq_right (le_of_lt hc)
      cases j with
      | zero => simpa [hmax] using hc
      | succ j =>
        simp only [List.getD_cons_succ, hmax]
        exact ih j (by omega)
    · rw [argmaxFirst, if_neg hc] at hj
      omega

theorem getD_mem_of_lt {α : Type} [Inhabited α] {l : List α} {j : ℕ} (d : α)
    (hj : j < l.length) : l.getD j d ∈ l := by
  induction l generalizing j with
  | nil => simp at hj
  | cons a t ih =>
    cases j with
    | zero => simp
    | succ j =>
      simp only [List.getD_cons_succ]
      exact List.mem_cons_of_mem a (ih (by simpa using hj))

theorem getD_map_card (l : List (Finset Voxel)) (j : ℕ) (hj : j < l.length) :
    (l.map Finset.card).getD j 0 = (l.getD j ∅).card := by
  induction l generalizing j with
  | nil => simp at hj
  | cons c t ih =>
    cases j with
    | zero => simp
    | succ j =>
      simp only [List.map_cons, List.getD_cons_succ]
      exact ih j (by simpa using hj)

/-- C8 counterexample: two voxels touching only at a corner, `(0,0,0)` and
`(1,1,1)`.  Under the claim's 26-connectivity they form one component, so
`keep_largest` should keep both; the implementation labels with
`connectivity=2` (18-connectivity on a 3D volume), splits them, and keeps only
the first — the claim's predicted output differs from the code's. -/
theorem C8_counterexample :
    convertDisconnected "keep_largest" voxelPair = ({((0 : ℤ), (0 : ℤ), (0 : ℤ))} : Finset Voxel)
    ∧ keepLargestComponent26 voxelPair = voxelPair :=
  of_decide_eq_true (by with_unfolding_all rfl)

/-- C8 (amended): with the default policy (anything other than
`"keep_largest"`) the assembled volume is returned unfiltered; with
`"keep_largest"` the returned volume is the scan-order component of some true
voxel under 18-connectivity (faces and edges — `skimage.measure.label` with
`connectivity=2` on a 3D volume), the components cover every true voxel and
each is an 18-connectivity reachability class, the chosen component has
maximal voxel count, and every earlier (lower) label has a strictly smaller
count (ties resolve to the lowest label id). -/
theorem C8_keep_largest_components (m : Finset Voxel) (policy : String) :
    (policy ≠ "keep_largest" → convertDisconnected policy m = m)
    ∧ (m.Nonempty → KeepLargestSpec m) := by
  constructor
  · intro h
    unfold convertDisconnected
    rw [if_neg h]
  · intro hm
    have hcne : ccComponents adj18 m ≠ [] := ccComponents_ne_nil adj18 hm
    have hmapne : (ccComponents adj18 m).map Finset.card ≠ [] := by
      simpa using hcne
    have hil : argmaxFirst ((ccComponents adj18 m).map Finset.card)
        < (ccComponents adj18 m).length := by
      have := argmaxFirst_lt_length hmapne
      simpa using this
    unfold KeepLargestSpec
    refine ⟨?_, ?_, ?_, ?_, ccComponents_covers adj18 m, ?_⟩
    · unfold convertDisconnected keepLargestComponent chosenComponent
      rw [if_pos rfl]
    · obtain ⟨p, hp, hc⟩ := ccComponents_classes adj18 m _ (getD_mem_of_lt ∅ hil)
      exact ⟨p, hp, hc⟩
    · intro c hc
      obtain ⟨j, hj, hcj⟩ := List.getElem_of_mem hc
      have h1 : ((ccComponents adj18 m).map Finset.card).getD j 0 = c.card := by
        rw [getD_map_card _ j hj]
        congr 1
        rw [List.getD_eq_getElem _ _ hj, hcj]
      have h2 := getD_le_maxN ((ccComponents adj18 m).map Finset.card) j
      rw [h1, ← getD_argmaxFirst ((ccComponents adj18 m).map Finset.card),
        getD_map_card _ _ hil] at h2
      exact h2
    · intro j hj
      have hjl : j < (ccComponents adj18 m).length := by omega
      have h3 := getD_lt_before_argmaxFirst ((ccComponents adj18 m).map Finset.card) j hj
      rw [getD_map_card _ j hjl, ← getD_argmaxFirst ((ccComponents adj18 m).map Finset.card),
        getD_map_card _ _ hil] at h3
      exact h3
    · intro c hc
      obtain ⟨p, hp, rfl⟩ := ccComponents_classes adj18 m c hc
      exact ⟨p, hp, fun q => mem_ccComp_iff adj18 m hp q⟩

theorem C8_keep_largest_components_witness :
    convertDisconnected "keep_as_is" voxelTriple = voxelTriple
    ∧ KeepLargestSpec voxelTriple :=
  ⟨(C8_keep_largest_components voxelTriple "keep_as_is").1
     (of_decide_eq_true (by with_unfolding_all rfl)),
   (C8_keep_largest_components voxelTriple "keep_as_is").2
     (of_decide_eq_true (by with_unfolding_all rfl))⟩

/-- C1 (code-bug evaluation): for the two-slice ROI at half-integer voxel
positions, reference-image use is rejected, so the mask is rasterized on the
synthetic grid from `_create_image_from_contour` — origin (5/2, −1, −1),
dimension 1×4×7 — and comes out non-empty; yet the emitted mask object
carries the reference image's grid descriptor (origin (0,0,0), unit spacing,
dimension 4×4×4, identity orientation), because lines 202-205 of `to_object`
read the descriptor from `image` in both branches.  The claim (and §3's mask
invariant) says the emitted mask carries the grid it was rasterized on. -/
theorem C1_emitted_grid_is_reference_not_rasterization_grid :
    (convertContourUsingImage metaTwoHalfSlices rcsTwoHalfSlices (some imgId)).1 = false
    ∧ (toObjectTwoHalf.toOption.getD none).isSome = true
    ∧ ((toObjectTwoHalf.toOption.getD none).getD []).length = 1
    ∧ emittedMaskTwoHalf.imageData ≠ ∅
    ∧ emittedMaskTwoHalf.origin = imgId.origin
    ∧ emittedMaskTwoHalf.spacing = imgId.spacing
    ∧ emittedMaskTwoHalf.dimension = imgId.dim
    ∧ emittedMaskTwoHalf.orientation = imgId.orientation
    ∧ syntheticGridTwoHalf.origin ≠ imgId.origin
    ∧ syntheticGridTwoHalf.dim ≠ imgId.dim :=
  of_decide_eq_true (by with_unfolding_all rfl)
